import Mathlib

/-!
# Verification of the jsonrps handshake, session framing and dispatch pipeline

A shallow embedding of the Go package `jsonrps` (server handshake in
`server.go`, client handshake in `client.go`, session framing and router in
`session.go`, JSON-RPC message types in `protocol.go`), together with
theorems settling the frozen specification claims.

Byte strings are modelled as `List Char` (the sources only ever treat the
connection as a byte stream read line by line).  Go standard-library
functions used by the package (`bufio.Reader.ReadString`, `strings.SplitN`,
`strings.TrimSpace`, `strings.Trim`, `net/textproto` header-key
canonicalisation used by `http.Header.Add`, `encoding/json` for the message
structs) are embedded alongside, faithful to their documented behaviour on
the inputs the package feeds them.
-/

/-- Byte strings of the wire protocol, modelled as lists of characters. -/
abbrev Str := List Char

/-- Model of `bufio.Reader.ReadString('\n')` over a byte-at-a-time stream:
returns the bytes up to and including the first newline, the remaining
stream, and a success flag.  When no newline is present the whole remaining
stream is returned with the flag `false`, modelling the data returned
together with `io.EOF`. -/
def readLine : Str → Str × Str × Bool
  | [] => ([], [], false)
  | c :: rest =>
    if c = '\n' then ([c], rest, true)
    else
      let p := readLine rest
      (c :: p.1, p.2.1, p.2.2)

/-- `isLine l` holds when `l` is one complete line: it ends with a newline
and contains no earlier newline. -/
def isLine : Str → Bool
  | [] => false
  | c :: rest => if c = '\n' then rest.isEmpty else isLine rest

/-- Model of `strings.SplitN(line, ": ", 2)`: split at the first occurrence
of the two-byte separator colon-space; `none` when the separator does not
occur (Go returns a one-element slice in that case). -/
def splitSep : Str → Option (Str × Str)
  | [] => none
  | ':' :: ' ' :: tail => some ([], tail)
  | c :: rest => (splitSep rest).map (fun p => (c :: p.1, p.2))

/-- Whitespace per Go's `unicode.IsSpace` restricted to the Latin-1 range
(the only bytes the header codec ever feeds it). -/
def goIsSpace (c : Char) : Bool :=
  decide (c = ' ' ∨ c = '\t' ∨ c = '\n' ∨ c = Char.ofNat 11 ∨
    c = Char.ofNat 12 ∨ c = '\r' ∨ c = Char.ofNat 133 ∨ c = Char.ofNat 160)

/-- Model of `strings.TrimSpace`: drop whitespace from both ends. -/
def trimSpace (s : Str) : Str :=
  ((s.dropWhile goIsSpace).reverse.dropWhile goIsSpace).reverse

/-- Model of `strings.Trim(s, cutset)`: drop characters of `cutset` from
both ends. -/
def trimCutset (cutset : Str) (s : Str) : Str :=
  ((s.dropWhile (· ∈ cutset)).reverse.dropWhile (· ∈ cutset)).reverse

/-- Valid MIME header token byte, per `net/textproto`
(`validHeaderFieldByte`): ASCII letters, digits, and the listed specials. -/
def validHeaderFieldByte (c : Char) : Bool :=
  decide ('a' ≤ c ∧ c ≤ 'z') || decide ('A' ≤ c ∧ c ≤ 'Z') ||
  decide ('0' ≤ c ∧ c ≤ '9') ||
  decide (c = '!' ∨ c = '#' ∨ c = '$' ∨ c = '%' ∨ c = '&' ∨
    c = Char.ofNat 39 ∨ c = '*' ∨ c = '+' ∨ c = '-' ∨ c = '.' ∨
    c = '^' ∨ c = '_' ∨ c = Char.ofNat 96 ∨ c = '|' ∨ c = '~')

/-- Case-folding pass of `textproto.CanonicalMIMEHeaderKey`: uppercase the
letter at the start and after each hyphen, lowercase every other letter. -/
def canonFold : Bool → Str → Str
  | _, [] => []
  | upper, c :: rest =>
    let c2 :=
      if upper && decide ('a' ≤ c ∧ c ≤ 'z') then Char.ofNat (c.toNat - 32)
      else if !upper && decide ('A' ≤ c ∧ c ≤ 'Z') then Char.ofNat (c.toNat + 32)
      else c
    c2 :: canonFold (c2 = '-') rest

/-- Model of `textproto.CanonicalMIMEHeaderKey`, which `http.Header.Add`
applies to every key: keys containing a non-token byte are returned
unchanged, otherwise the case-folding pass is applied. -/
def canonicalMIMEHeaderKey (s : Str) : Str :=
  if s.all validHeaderFieldByte then canonFold true s else s

/-- Functional model of `http.Header`: an association list from canonical
key to the values added under it, keys in first-insertion order and values
in insertion order (Go's map iteration order is unspecified; the association
list records exactly the map's contents). -/
abbrev Headers := List (Str × List Str)

/-- Append a value under a (canonical) key, preserving insertion order. -/
def addVal : Headers → Str → Str → Headers
  | [], ck, v => [(ck, [v])]
  | (k0, vs) :: t, ck, v =>
    if k0 = ck then (k0, vs ++ [v]) :: t else (k0, vs) :: addVal t ck v

/-- Model of `http.Header.Add(key, value)`: canonicalise the key, then
append the value under it. -/
def headerAdd (h : Headers) (k v : Str) : Headers :=
  addVal h (canonicalMIMEHeaderKey k) v

/-- `DefaultProtocolSignature` constant of `server.go`. -/
def DefaultProtocolSignature : Str := "JSONRPS/1.0".toList

/-- `DefaultMimeType` constant of `server.go`. -/
def DefaultMimeType : Str := "application/json+rps".toList

/-- The exact bytes `InitializeServerSession` writes on a malformed header
line (`server.go:47`). -/
def badRequestBytes : Str :=
  DefaultProtocolSignature ++ " 400 Bad Request\r\n\r\n".toList

/-- Observable outcome of `InitializeServerSession` (`server.go:24-58`):
the returned session's header multimap (`none` models the `nil` session),
the bytes written to the connection, whether the connection was closed, and
whether a non-nil error was returned. -/
structure SrvResult where
  session : Option Headers
  written : Str
  closed : Bool
  hasErr : Bool
deriving DecidableEq, Repr

/-- The header-reading loop of `InitializeServerSession` (`server.go:36-54`),
fuelled (the wrapper passes one unit of fuel per input byte plus one, which
the loop can never exhaust since every parsed line consumes at least one
byte).  Each iteration reads one line; an unterminated read models
`ReadString` returning an error, on which the loop breaks and the session is
returned together with that error; the bare terminator line stops the loop
successfully; a line without the colon-space separator writes the 400 status
line, closes the connection and yields no session; otherwise the trimmed
value is added under the header name and the loop continues. -/
def srvLoopF : Nat → Str → Headers → SrvResult
  | 0, _, hdrs => { session := some hdrs, written := [], closed := false, hasErr := true }
  | fuel + 1, s, hdrs =>
    match readLine s with
    | (_, _, false) =>
      { session := some hdrs, written := [], closed := false, hasErr := true }
    | (line, rest, true) =>
      if line = ['\n'] then
        { session := some hdrs, written := [], closed := false, hasErr := false }
      else
        match splitSep line with
        | none => { session := none, written := badRequestBytes, closed := true, hasErr := false }
        | some (n, v) => srvLoopF fuel rest (headerAdd hdrs n (trimSpace v))

/-- Model of `InitializeServerSession` (`server.go:24-58`) as a function of
the bytes the connection will deliver: the session starts with an empty
header multimap and the loop above consumes the stream. -/
def InitializeServerSession (input : Str) : SrvResult :=
  srvLoopF (input.length + 1) input []

/-- The state of `Session` relevant to the body-write path: the
`headerSent` latch (`session.go`, field `headerSent`). -/
structure Session where
  headerSent : Bool
deriving DecidableEq

/-- Model of `Session.Write` (`session.go:52-59`): when the latch is unset,
first write the blank terminator and set the latch, then write exactly the
argument bytes.  Returns the updated session and the chunks written to the
connection, in order. -/
def Session.Write (sess : Session) (p : Str) : Session × List Str :=
  if sess.headerSent then ({ headerSent := true }, [p])
  else ({ headerSent := true }, ["\r\n".toList, p])

/-- A sequence of `Session.Write` calls, accumulating the chunks handed to
the connection in order. -/
def writeCalls : Session → List Str → Session × List Str
  | sess, [] => (sess, [])
  | sess, p :: ps =>
    let r1 := sess.Write p
    let r2 := writeCalls r1.1 ps
    (r2.1, r1.2 ++ r2.2)

/-- A `ServerSessionHandler` (`session.go`): a capability probe and a
session-handling action.  The action is modelled as the handler's effect on
the session state, so "performs no action" is the identity. -/
structure ServerSessionHandler (S : Type) where
  CanHandleSession : S → Bool
  HandleSession : S → S

/-- `ServerSessionRouter` (`session.go:146`): an ordered list of handlers. -/
abbrev ServerSessionRouter (S : Type) := List (ServerSessionHandler S)

/-- Model of `ServerSessionRouter.CanHandleSession` (`session.go:149-156`):
probe the handlers in list order, returning `true` at the first handler
whose probe succeeds (the recursion stops there, mirroring the early
`return true`), `false` when none succeeds. -/
def ServerSessionRouter.CanHandleSession {S : Type} :
    ServerSessionRouter S → S → Bool
  | [], _ => false
  | h :: t, s =>
    if h.CanHandleSession s then true else ServerSessionRouter.CanHandleSession t s

/-- Model of `ServerSessionRouter.HandleSession` (`session.go:159-166`):
probe the handlers in list order and hand the session to the first handler
whose probe succeeds (then return); when none succeeds the session is left
untouched. -/
def ServerSessionRouter.HandleSession {S : Type} :
    ServerSessionRouter S → S → S
  | [], s => s
  | h :: t, s =>
    if h.CanHandleSession s then h.HandleSession s
    else ServerSessionRouter.HandleSession t s

/-- Observable outcome of `InitializeClientSession` (`client.go:20-74`): the
final contents of the session's local (outgoing) header multimap and of its
remote-headers multimap. -/
structure ClientSessionModel where
  localHeaders : Headers
  remoteHeaders : Headers
deriving DecidableEq, Repr

/-- The peer-header reading loop of `InitializeClientSession`
(`client.go:49-68`), fuelled like `srvLoopF`.  Each iteration reads one
line, trims the cutset `"\r\n "` from both ends, breaks on a read error or
on an empty (terminator) line, and otherwise adds the pair under
`sess.LocalHeaders` when the line splits on colon-space (a line that does
not split is skipped and the loop continues; the client loop has no 400
path).  The accumulator is the session's `LocalHeaders` map, exactly as in
the source (`client.go:66`). -/
def clientHdrLoopF : Nat → Str → Headers → Headers
  | 0, _, acc => acc
  | fuel + 1, s, acc =>
    match readLine s with
    | (_, _, false) => acc
    | (line0, rest, true) =>
      let line := trimCutset "\r\n ".toList line0
      if line = [] then acc
      else
        match splitSep line with
        | some (n, v) => clientHdrLoopF fuel rest (headerAdd acc n (trimSpace v))
        | none => clientHdrLoopF fuel rest acc

/-- Model of `InitializeClientSession` (`client.go:20-74`) restricted to its
effect on the two header multimaps.  The session is created with
`LocalHeaders` set to the caller's map `h` and `RemoteHeaders` to a fresh
empty map (`client.go:24-25`); `WriteClientHeader` and the initial ping
request only write bytes to the connection and never touch either map; the
signature check compares the just-assigned default against itself and
cannot fail; the read loop then mutates `LocalHeaders` only.
`RemoteHeaders` is never written anywhere in the source. -/
def InitializeClientSession (h : Headers) (input : Str) : ClientSessionModel :=
  { localHeaders := clientHdrLoopF (input.length + 1) input h
    remoteHeaders := [] }

/-- Kinds of access to the method registry map `defaultServer.methods`. -/
inductive RegistryOp where
  | read
  | store
  | remove
deriving DecidableEq

/-- Events on the method registry: acquiring or releasing `methodsLock`,
or touching the map. -/
inductive RegistryEvent where
  | lock
  | unlock
  | op (o : RegistryOp) (name : Str)
deriving DecidableEq

/-- Event trace of `defaultServer.SetMethod` (`server.go:213-221`):
`methodsLock.Lock()`, then `delete(h.methods, name)` when the method is
nil and `h.methods[name] = method` otherwise, then the deferred
`methodsLock.Unlock()`. -/
def SetMethodTrace (name : Str) (methodIsNil : Bool) : List RegistryEvent :=
  [.lock] ++ (if methodIsNil then [.op .remove name] else [.op .store name]) ++ [.unlock]

/-- Event trace of the registry access performed by the dispatcher
goroutine of `defaultServer.HandleSession` when it handles a request
(`server.go:159`, `m, ok := h.methods[req.Method]`): the goroutine body
(`server.go:139-181`) performs no lock or unlock operation around it. -/
def dispatcherLookupTrace (methodName : Str) : List RegistryEvent :=
  [.op .read methodName]

/-- Checks that every registry operation in the trace happens while the
lock is held, tracking the lock depth. -/
def opsUnderLockFrom : Nat → List RegistryEvent → Bool
  | _, [] => true
  | d, .lock :: t => opsUnderLockFrom (d + 1) t
  | d, .unlock :: t => opsUnderLockFrom (d - 1) t
  | d, .op _ _ :: t => decide (d ≠ 0) && opsUnderLockFrom d t

/-- A trace whose registry operations all happen under the lock. -/
def opsUnderLock (t : List RegistryEvent) : Bool := opsUnderLockFrom 0 t

/-- The left and right curly-brace bytes of the JSON syntax. -/
def lbrace : Char := Char.ofNat 123

/-- See `lbrace`. -/
def rbrace : Char := Char.ofNat 125

/-- A decoded JSON value, as produced by `encoding/json` when decoding into
`any`.  Numbers keep their source token (Go would produce a `float64`; the
claims never compare decoded numbers, and the spec's round-trip claim
explicitly ignores that widening). -/
inductive JsonVal where
  | null
  | bool (b : Bool)
  | num (raw : Str)
  | str (s : Str)
  | arr (elems : List JsonVal)
  | obj (members : List (Str × JsonVal))

/-- JSON insignificant whitespace (`encoding/json` scanner). -/
def jsonWS (c : Char) : Bool :=
  decide (c = ' ' ∨ c = '\t' ∨ c = '\n' ∨ c = '\r')

/-- Drop leading JSON whitespace. -/
def skipWS (s : Str) : Str := s.dropWhile jsonWS

/-- ASCII decimal digit test. -/
def isDigit (c : Char) : Bool := decide ('0' ≤ c ∧ c ≤ '9')

/-- Value of one hexadecimal digit. -/
def hexVal? (c : Char) : Option Nat :=
  if isDigit c then some (c.toNat - 48)
  else if decide ('a' ≤ c ∧ c ≤ 'f') then some (c.toNat - 87)
  else if decide ('A' ≤ c ∧ c ≤ 'F') then some (c.toNat - 55)
  else none

/-- Parse the body of a JSON string after the opening quote, decoding the
escape sequences of the JSON grammar; returns the decoded content and the
remainder after the closing quote.  Raw control bytes are rejected, as in
Go's scanner.  (Fuel: one unit per input byte suffices.) -/
def parseStringBody : Nat → Str → Option (Str × Str)
  | 0, _ => none
  | _, [] => none
  | fuel + 1, c :: rest =>
    if c = '"' then some ([], rest)
    else if c = '\\' then
      match rest with
      | [] => none
      | e :: r2 =>
        if e = 'u' then
          match r2 with
          | h1 :: h2 :: h3 :: h4 :: r3 =>
            match hexVal? h1, hexVal? h2, hexVal? h3, hexVal? h4 with
            | some a, some b, some c4, some d =>
              (parseStringBody fuel r3).map
                (fun p => (Char.ofNat (((a * 16 + b) * 16 + c4) * 16 + d) :: p.1, p.2))
            | _, _, _, _ => none
          | _ => none
        else
          let dec : Option Char :=
            if e = '"' then some '"'
            else if e = '\\' then some '\\'
            else if e = '/' then some '/'
            else if e = 'b' then some (Char.ofNat 8)
            else if e = 'f' then some (Char.ofNat 12)
            else if e = 'n' then some '\n'
            else if e = 'r' then some '\r'
            else if e = 't' then some '\t'
            else none
          match dec with
          | some ch => (parseStringBody fuel r2).map (fun p => (ch :: p.1, p.2))
          | none => none
    else if c.toNat < 32 then none
    else (parseStringBody fuel rest).map (fun p => (c :: p.1, p.2))

/-- Characters that may occur in a JSON number token. -/
def numChar (c : Char) : Bool :=
  isDigit c || decide (c = '-' ∨ c = '+' ∨ c = '.' ∨ c = 'e' ∨ c = 'E')

/-- Scan a JSON number token (leading sign and at least one digit). -/
def parseNumToken (s : Str) : Option (Str × Str) :=
  let tok := s.takeWhile numChar
  if tok.any isDigit && (decide (tok.head? = some '-') || decide ((tok.head?.map isDigit) = some true)) then
    some (tok, s.dropWhile numChar)
  else none

/-- Parser modes: a single value, the items of an array after `[`, or the
members of an object after the opening brace (both with the elements parsed
so far). -/
inductive PMode where
  | value
  | arrItems (acc : List JsonVal)
  | objItems (acc : List (Str × JsonVal))

/-- Recursive-descent JSON parser (fuel bounds the recursion; callers pass
twice the input length, which concrete evaluation never exhausts).  Returns
the parsed value and the remaining input. -/
def parseJ : Nat → PMode → Str → Option (JsonVal × Str)
  | 0, _, _ => none
  | fuel + 1, .value, s0 =>
    let s := skipWS s0
    match s with
    | [] => none
    | c :: rest =>
      if c = '"' then
        (parseStringBody (rest.length + 1) rest).map (fun p => (JsonVal.str p.1, p.2))
      else if c = '[' then
        match skipWS rest with
        | d :: tail => if d = ']' then some (.arr [], tail) else parseJ fuel (.arrItems []) rest
        | [] => none
      else if c = lbrace then
        match skipWS rest with
        | d :: tail => if d = rbrace then some (.obj [], tail) else parseJ fuel (.objItems []) rest
        | [] => none
      else
        match s with
        | 'n' :: 'u' :: 'l' :: 'l' :: r => some (.null, r)
        | 't' :: 'r' :: 'u' :: 'e' :: r => some (.bool true, r)
        | 'f' :: 'a' :: 'l' :: 's' :: 'e' :: r => some (.bool false, r)
        | _ => (parseNumToken s).map (fun p => (JsonVal.num p.1, p.2))
  | fuel + 1, .arrItems acc, s =>
    match parseJ fuel .value s with
    | none => none
    | some (v, r) =>
      match skipWS r with
      | ',' :: tail => parseJ fuel (.arrItems (acc ++ [v])) tail
      | c :: tail => if c = ']' then some (.arr (acc ++ [v]), tail) else none
      | [] => none
  | fuel + 1, .objItems acc, s =>
    match skipWS s with
    | c :: rest =>
      if c = '"' then
        match parseStringBody (rest.length + 1) rest with
        | none => none
        | some (key, r1) =>
          match skipWS r1 with
          | ':' :: r2 =>
            match parseJ fuel .value r2 with
            | none => none
            | some (v, r3) =>
              match skipWS r3 with
              | ',' :: tail => parseJ fuel (.objItems (acc ++ [(key, v)])) tail
              | d :: tail =>
                if d = rbrace then some (.obj (acc ++ [(key, v)]), tail) else none
              | [] => none
          | _ => none
      else none
    | [] => none

/-- Parse one JSON value. -/
def parseValue (fuel : Nat) (s : Str) : Option (JsonVal × Str) :=
  parseJ fuel .value s

/-- Parse the members of a JSON object after its opening brace, keeping for
each member the raw bytes of its value (what `json.RawMessage` captures).
Returns the member list and the input remaining after the closing brace. -/
def parseMembersRaw : Nat → Str → List (Str × Str × JsonVal) →
    Option (List (Str × Str × JsonVal) × Str)
  | 0, _, _ => none
  | fuel + 1, s, acc =>
    match skipWS s with
    | c :: rest =>
      if c = '"' then
        match parseStringBody (rest.length + 1) rest with
        | none => none
        | some (key, r1) =>
          match skipWS r1 with
          | ':' :: r2 =>
            let s1 := skipWS r2
            match parseValue (2 * s1.length + 2) s1 with
            | none => none
            | some (v, r3) =>
              let raw := s1.take (s1.length - r3.length)
              match skipWS r3 with
              | ',' :: tail => parseMembersRaw fuel tail (acc ++ [(key, raw, v)])
              | d :: tail =>
                if d = rbrace then some (acc ++ [(key, raw, v)], tail) else none
              | [] => none
          | _ => none
      else none
    | [] => none

/-- ASCII lowercase fold, used for `encoding/json`'s case-insensitive
matching of member keys against struct field tags. -/
def toLowerAscii (c : Char) : Char :=
  if decide ('A' ≤ c ∧ c ≤ 'Z') then Char.ofNat (c.toNat + 32) else c

/-- Case-insensitive ASCII equality of a member key and a field tag. -/
def eqFold (a b : Str) : Bool := a.map toLowerAscii = b.map toLowerAscii

/-- `JSONRPCRequest` (`protocol.go:6-18`): version tag `jsonrpc`, method
name, opaque params (`json.RawMessage`, kept as the raw value bytes;
`none` models a nil message), and the identifier (`any`; `none` models a
nil interface). -/
structure JSONRPCRequest where
  Version : Str
  Method : Str
  Params : Option Str
  ID : Option JsonVal

/-- The zero `JSONRPCRequest` that decoding starts from. -/
def zeroRequest : JSONRPCRequest :=
  { Version := [], Method := [], Params := none, ID := none }

/-- Apply one decoded object member to a `JSONRPCRequest`, following
`encoding/json` field decoding: `jsonrpc` and `method` require a JSON
string (null leaves the field untouched, any other kind is a decode error);
`params` is a `json.RawMessage` and captures the member's raw bytes
whatever the value is; `id` is an `any`, set to the decoded value and reset
to nil by null; unknown keys are ignored; keys match tags
case-insensitively. -/
def applyRequestField (r : JSONRPCRequest) (key raw : Str) (v : JsonVal) :
    Option JSONRPCRequest :=
  if eqFold key "jsonrpc".toList then
    match v with
    | .str s => some { r with Version := s }
    | .null => some r
    | _ => none
  else if eqFold key "method".toList then
    match v with
    | .str s => some { r with Method := s }
    | .null => some r
    | _ => none
  else if eqFold key "params".toList then some { r with Params := some raw }
  else if eqFold key "id".toList then
    match v with
    | .null => some { r with ID := none }
    | v => some { r with ID := some v }
  else some r

/-- `JSONRPCError` (`protocol.go:21-30`). -/
structure JSONRPCError where
  Code : Int
  Message : Str
  Data : Option JsonVal

/-- The zero `JSONRPCError`. -/
def zeroError : JSONRPCError := { Code := 0, Message := [], Data := none }

/-- Decode a JSON integer literal into a Go `int` (decimal digits with
optional sign; `encoding/json` rejects fractional or exponent forms for
integer fields). -/
def rawToInt? (s : Str) : Option Int :=
  let digitsVal : Str → Option Nat := fun ds =>
    if ds ≠ [] ∧ ds.all isDigit then
      some (ds.foldl (fun a c => a * 10 + (c.toNat - 48)) 0)
    else none
  match s with
  | '-' :: ds => (digitsVal ds).map (fun n => -(n : Int))
  | ds => (digitsVal ds).map (fun n => (n : Int))

/-- Apply one decoded object member to a `JSONRPCError`. -/
def applyErrorField (e : JSONRPCError) (key : Str) (v : JsonVal) :
    Option JSONRPCError :=
  if eqFold key "code".toList then
    match v with
    | .num raw => (rawToInt? raw).map (fun i => { e with Code := i })
    | .null => some e
    | _ => none
  else if eqFold key "message".toList then
    match v with
    | .str s => some { e with Message := s }
    | .null => some e
    | _ => none
  else if eqFold key "data".toList then
    match v with
    | .null => some { e with Data := none }
    | v => some { e with Data := some v }
  else some e

/-- `JSONRPCResponse` (`protocol.go:33-53`): version, identifier, opaque
result, error object pointer (`none` models nil), and the extended
subscription fields `method` and `params`. -/
structure JSONRPCResponse where
  Version : Str
  ID : Option JsonVal
  Result : Option Str
  Error : Option JSONRPCError
  Method : Str
  Params : Option Str

/-- The zero `JSONRPCResponse` that decoding starts from. -/
def zeroResponse : JSONRPCResponse :=
  { Version := [], ID := none, Result := none, Error := none,
    Method := [], Params := none }

/-- Apply one decoded object member to a `JSONRPCResponse`; `result` and
`params` are `json.RawMessage` fields capturing raw bytes, `error` is a
pointer to a struct (null yields nil, an object is decoded, anything else
is a decode error). -/
def applyResponseField (r : JSONRPCResponse) (key raw : Str) (v : JsonVal) :
    Option JSONRPCResponse :=
  if eqFold key "jsonrpc".toList then
    match v with
    | .str s => some { r with Version := s }
    | .null => some r
    | _ => none
  else if eqFold key "id".toList then
    match v with
    | .null => some { r with ID := none }
    | v => some { r with ID := some v }
  else if eqFold key "result".toList then some { r with Result := some raw }
  else if eqFold key "error".toList then
    match v with
    | .null => some { r with Error := none }
    | .obj ms =>
      (ms.foldlM (fun e m => applyErrorField e m.1 m.2) zeroError).map
        (fun e => { r with Error := some e })
    | _ => none
  else if eqFold key "method".toList then
    match v with
    | .str s => some { r with Method := s }
    | .null => some r
    | _ => none
  else if eqFold key "params".toList then some { r with Params := some raw }
  else some r

/-- Shared shape of `json.Unmarshal(line, &ptr)` for a pointer to a struct:
a top-level JSON null sets the pointer to nil with no error (`some none`);
a top-level object is decoded member by member into the zero struct; any
other document, trailing garbage, or a member of the wrong kind is a decode
error (`none`). -/
def unmarshalStructLine {A : Type} (zero : A)
    (apply : A → Str → Str → JsonVal → Option A) (line : Str) :
    Option (Option A) :=
  match skipWS line with
  | 'n' :: 'u' :: 'l' :: 'l' :: rest =>
    if skipWS rest = [] then some none else none
  | c :: rest =>
    if c = lbrace then
      match skipWS rest with
      | d :: tail2 =>
        if d = rbrace then
          if skipWS tail2 = [] then some (some zero) else none
        else
          match parseMembersRaw (rest.length + 1) rest [] with
          | none => none
          | some (members, after) =>
            if skipWS after = [] then
              match members.foldlM (fun a m => apply a m.1 m.2.1 m.2.2) zero with
              | none => none
              | some a => some (some a)
            else none
      | [] => none
    else none
  | [] => none

/-- Model of `json.Unmarshal(line, &request)` for `*JSONRPCRequest`
(`session.go:81`). -/
def unmarshalRequestLine (line : Str) : Option (Option JSONRPCRequest) :=
  unmarshalStructLine zeroRequest applyRequestField line

/-- Model of `json.Unmarshal(line, &response)` for `*JSONRPCResponse`
(`session.go:105`). -/
def unmarshalResponseLine (line : Str) : Option (Option JSONRPCResponse) :=
  unmarshalStructLine zeroResponse applyResponseField line

/-- Model of `Session.ReadRequest` (`session.go:75-83`) as a function of
the bytes the connection delivers: read one line (a read error is
propagated, modelled by `none`), then unmarshal it; on success the decoded
request pointer is returned with a nil error (`some x`, where `x = none`
is the nil request decoded from a JSON null). -/
def Session.ReadRequest (input : Str) : Option (Option JSONRPCRequest) :=
  match readLine input with
  | (_, _, false) => none
  | (line, _, true) => unmarshalRequestLine line

/-- Model of `Session.ReadResponse` (`session.go:99-107`), as
`Session.ReadRequest`. -/
def Session.ReadResponse (input : Str) : Option (Option JSONRPCResponse) :=
  match readLine input with
  | (_, _, false) => none
  | (line, _, true) => unmarshalResponseLine line

/-- One hexadecimal digit character (lowercase, as Go's encoder emits). -/
def hexDigit (n : Nat) : Char :=
  if n < 10 then Char.ofNat (48 + n) else Char.ofNat (97 + (n - 10))

/-- Two lowercase hex digits of a byte. -/
def hex2 (n : Nat) : Str := [hexDigit (n / 16 % 16), hexDigit (n % 16)]

/-- `encoding/json` string escaping (default encoder): quote, backslash,
the named control escapes, `\u00xx` for other control bytes, and the HTML
escapes for angle brackets and ampersand. -/
def escapeJSONChar (c : Char) : Str :=
  if c = '"' then ['\\', '"']
  else if c = '\\' then ['\\', '\\']
  else if c = '\n' then ['\\', 'n']
  else if c = '\r' then ['\\', 'r']
  else if c = '\t' then ['\\', 't']
  else if c.toNat < 32 ∨ c = '<' ∨ c = '>' ∨ c = '&' then
    "\\u00".toList ++ hex2 c.toNat
  else [c]

/-- A JSON string literal for `s`. -/
def jsonQuote (s : Str) : Str :=
  '"' :: (s.map escapeJSONChar).flatten ++ ['"']

/-- Join chunks with a separator. -/
def joinSep (sep : Str) : List Str → Str
  | [] => []
  | [x] => x
  | x :: xs => x ++ sep ++ joinSep sep xs

mutual
/-- `json.Marshal` of a decoded JSON value (used for the `id` field, whose
static type is `any`).  Numbers re-emit their kept token. -/
def marshalJV : JsonVal → Str
  | .null => "null".toList
  | .bool true => "true".toList
  | .bool false => "false".toList
  | .num raw => raw
  | .str s => jsonQuote s
  | .arr xs => '[' :: joinSep [','] (marshalJVList xs) ++ [']']
  | .obj ms => lbrace :: joinSep [','] (marshalJVMembers ms) ++ [rbrace]

/-- Marshal each element of an array. -/
def marshalJVList : List JsonVal → List Str
  | [] => []
  | x :: xs => marshalJV x :: marshalJVList xs

/-- Marshal each member of an object. -/
def marshalJVMembers : List (Str × JsonVal) → List Str
  | [] => []
  | m :: ms => (jsonQuote m.1 ++ [':'] ++ marshalJV m.2) :: marshalJVMembers ms
end

/-- Model of `json.Marshal(request)` for a `JSONRPCRequest`
(`session.go:65`): an object with the fields in struct order, `params`
(a `json.RawMessage`, emitted as its raw bytes, which the claims only
exercise on already-compact values) and `id` omitted when empty per their
`omitempty` tags. -/
def marshalRequest (r : JSONRPCRequest) : Str :=
  lbrace :: ("\"jsonrpc\":".toList ++ jsonQuote r.Version ++
    ",\"method\":".toList ++ jsonQuote r.Method ++
    (match r.Params with
     | some p => if p = [] then [] else ",\"params\":".toList ++ p
     | none => []) ++
    (match r.ID with
     | some v => ",\"id\":".toList ++ marshalJV v
     | none => [])) ++ [rbrace]

/-- Model of `Session.WriteRequest` (`session.go:63-71`): marshal the
request, append the newline, and hand the bytes to `Session.Write` (which
prepends the blank terminator when the latch is still unset).  Returns the
updated session and the bytes written to the connection. -/
def Session.WriteRequest (sess : Session) (r : JSONRPCRequest) : Session × Str :=
  let w := sess.Write (marshalRequest r ++ ['\n'])
  (w.1, w.2.flatten)

/-- The concrete request of the spec's round-trip property:
`JSONRPCRequest(version "2.0", method "subtract", params [42,23], id "1")`. -/
def sampleRequest : JSONRPCRequest :=
  { Version := "2.0".toList
    Method := "subtract".toList
    Params := some "[42,23]".toList
    ID := some (.str "1".toList) }

/-- A buffered reader's `ReadString('\n')` over a transport that delivers
the byte stream in chunks (each underlying `Read` call returns the next
chunk).  `buf` is the reader's internal buffer; chunks are pulled until the
buffer contains a newline.  Returns the line, the look-ahead bytes left in
the reader's buffer, the chunks not yet pulled, and a success flag (on
end of stream the buffered bytes are returned with `false`, modelling
`io.EOF`). -/
def bufReadLine : List Str → Str → Str × Str × List Str × Bool
  | chunks, buf =>
    if '\n' ∈ buf then
      match readLine buf with
      | (l, r, _) => (l, r, chunks, true)
    else
      match chunks with
      | [] => (buf, [], [], false)
      | c :: cs => bufReadLine cs (buf ++ c)

/-- Outcome of the server header loop in the chunked-transport model. -/
inductive HSOutcome where
  | clean
  | malformed
  | eofErr
deriving DecidableEq, Repr

/-- The header loop of `InitializeServerSession` over a chunked transport,
exactly as the source executes it: `bufio.NewReader(c)` is called inside
the loop (`server.go:38`), so every iteration starts a fresh reader with an
empty buffer and the look-ahead bytes of the previous read are discarded.
Returns the headers, the outcome, and the chunks the transport still
holds. -/
def srvChunkFresh : Nat → List Str → Headers → Headers × HSOutcome × List Str
  | 0, chunks, h => (h, .eofErr, chunks)
  | fuel + 1, chunks, h =>
    match bufReadLine chunks [] with
    | (_, _, _, false) => (h, .eofErr, [])
    | (line, _, chunksRest, true) =>
      if line = ['\n'] then (h, .clean, chunksRest)
      else
        match splitSep line with
        | none => (h, .malformed, chunksRest)
        | some (n, v) => srvChunkFresh fuel chunksRest (headerAdd h n (trimSpace v))

/-- The same header loop with the single persistent buffered reader the
specification mandates: the reader's buffer is threaded from one line read
to the next, so look-ahead bytes survive.  Returns additionally the
leftover buffer. -/
def srvChunkPers : Nat → List Str → Str → Headers → Headers × HSOutcome × List Str × Str
  | 0, chunks, buf, h => (h, .eofErr, chunks, buf)
  | fuel + 1, chunks, buf, h =>
    match bufReadLine chunks buf with
    | (_, _, _, false) => (h, .eofErr, [], [])
    | (line, bufRest, chunksRest, true) =>
      if line = ['\n'] then (h, .clean, chunksRest, bufRest)
      else
        match splitSep line with
        | none => (h, .malformed, chunksRest, bufRest)
        | some (n, v) => srvChunkPers fuel chunksRest bufRest (headerAdd h n (trimSpace v))

/-- Result of a handshake followed by one `ReadRequest` on the same
connection: the parsed headers, the handshake outcome, and the request
read afterwards (`none` when the handshake failed with 400 or the
subsequent line read errored; `some x` is a successful read returning
request `x`). -/
structure PipeOut where
  headers : Headers
  outcome : HSOutcome
  msg : Option (Option JSONRPCRequest)

/-- Fuel that upper-bounds the line reads a chunked run can perform. -/
def chunkFuel (chunks : List Str) : Nat :=
  (chunks.map List.length).sum + chunks.length + 2

/-- The source's composition over a chunked transport: handshake
(`server.go:36-54`) then `Session.ReadRequest` (`session.go:75-83`), both
creating a fresh `bufio.Reader` per line read. -/
def pipelineFresh (chunks : List Str) : PipeOut :=
  match srvChunkFresh (chunkFuel chunks) chunks [] with
  | (h, .malformed, _) => { headers := h, outcome := .malformed, msg := none }
  | (h, out, rest) =>
    match bufReadLine rest [] with
    | (line, _, _, true) => { headers := h, outcome := out, msg := unmarshalRequestLine line }
    | (_, _, _, false) => { headers := h, outcome := out, msg := none }

/-- The same composition with one persistent buffered reader per
connection, as the specification requires. -/
def pipelinePers (chunks : List Str) : PipeOut :=
  match srvChunkPers (chunkFuel chunks) chunks [] [] with
  | (h, .malformed, _, _) => { headers := h, outcome := .malformed, msg := none }
  | (h, out, rest, buf) =>
    match bufReadLine rest buf with
    | (line, _, _, true) => { headers := h, outcome := out, msg := unmarshalRequestLine line }
    | (_, _, _, false) => { headers := h, outcome := out, msg := none }

/-- Deliver a byte stream one byte per transport read. -/
def explode (s : Str) : List Str := s.map (fun c => [c])

/-- Process one header line the way the handshake loop does: split at the
first colon-space and add the value, trimmed, under the name (identity on a
line without the separator; the theorems only apply this to lines that have
one). -/
def addHeaderLine (h : Headers) (l : Str) : Headers :=
  match splitSep l with
  | some (n, v) => headerAdd h n (trimSpace v)
  | none => h

/-- `isLine l` characterises exactly the inputs on which a fresh
`ReadString('\n')` returns the whole input with no error: appended to any
continuation, the line comes back intact with the continuation untouched. -/
theorem readLine_isLine_append (l : Str) (hl : isLine l = true) (b : Str) :
    readLine (l ++ b) = (l, b, true) := by
  induction l with
  | nil => simp [isLine] at hl
  | cons c rest ih =>
    by_cases hc : c = '\n'
    · subst hc
      have hrest : rest = [] := by
        cases rest with
        | nil => rfl
        | cons x xs => simp [isLine] at hl
      subst hrest
      simp [readLine]
    · have hl' : isLine rest = true := by simpa [isLine, hc] using hl
      simp [readLine, hc, ih hl']

/-- A complete line is nonempty, so a list of complete lines is no longer
than their concatenation. -/
theorem length_le_flatten_length (lines : List Str)
    (h : ∀ l ∈ lines, isLine l = true) :
    lines.length ≤ lines.flatten.length := by
  induction lines with
  | nil => simp
  | cons l ls ih =>
    have h1 : isLine l = true := h l (by simp)
    have hlen : 1 ≤ l.length := by
      cases l with
      | nil => simp [isLine] at h1
      | cons c r => simp
    have h2 := ih (fun x hx => h x (by simp [hx]))
    simp only [List.flatten_cons, List.length_cons, List.length_append]
    omega

/-- One successful iteration of the server header loop: a complete header
line that is not the terminator and splits at the separator is consumed,
its pair is added, and the loop continues on the remainder with one unit of
fuel spent. -/
theorem srvLoopF_step (k : Nat) (l rest : Str) (hdrs : Headers)
    (hl : isLine l = true) (hne : l ≠ ['\n']) (n v : Str)
    (hsp : splitSep l = some (n, v)) :
    srvLoopF (k + 1) (l ++ rest) hdrs =
      srvLoopF k rest (headerAdd hdrs n (trimSpace v)) := by
  simp only [srvLoopF, readLine_isLine_append l hl rest, hne, if_false, hsp]

/-- The loop on the bare terminator line: stop successfully with the
headers collected so far, nothing written, nothing closed, no error. -/
theorem srvLoopF_term (f : Nat) (hdrs : Headers) :
    srvLoopF (f + 1) ['\n'] hdrs =
      { session := some hdrs, written := [], closed := false, hasErr := false } := by
  simp [srvLoopF, readLine]

/-- The loop on a complete line without the colon-space separator: write
the 400 status line, close the connection, yield no session and no error,
whatever bytes follow. -/
theorem srvLoopF_bad (f : Nat) (bad tail : Str) (hdrs : Headers)
    (hb1 : isLine bad = true) (hb2 : bad ≠ ['\n']) (hb3 : splitSep bad = none) :
    srvLoopF (f + 1) (bad ++ tail) hdrs =
      { session := none, written := badRequestBytes, closed := true, hasErr := false } := by
  simp only [srvLoopF, readLine_isLine_append bad hb1 tail, hb2, if_false, hb3]

/-- Consuming a block of well-formed header lines: the loop folds
`addHeaderLine` over them in order, spending one unit of fuel per line, and
continues on the suffix. -/
theorem srvLoopF_lines :
    ∀ (lines : List Str) (f : Nat) (suffix : Str) (hdrs : Headers),
    (∀ l ∈ lines, isLine l = true ∧ l ≠ ['\n'] ∧ (splitSep l).isSome = true) →
    srvLoopF (lines.length + f) (lines.flatten ++ suffix) hdrs =
      srvLoopF f suffix (lines.foldl addHeaderLine hdrs)
  | [], f, suffix, hdrs, _ => by simp
  | l :: ls, f, suffix, hdrs, hg => by
    obtain ⟨h1, h2, h3⟩ := hg l (by simp)
    obtain ⟨⟨n, v⟩, hsp⟩ := Option.isSome_iff_exists.mp h3
    have hfoldarg : addHeaderLine hdrs l = headerAdd hdrs n (trimSpace v) := by
      simp [addHeaderLine, hsp]
    have hrec := srvLoopF_lines ls f suffix (addHeaderLine hdrs l)
      (fun x hx => hg x (by simp [hx]))
    have harith : (l :: ls).length + f = (ls.length + f) + 1 := by
      simp [List.length_cons]; omega
    calc srvLoopF ((l :: ls).length + f) ((l :: ls).flatten ++ suffix) hdrs
        = srvLoopF ((ls.length + f) + 1) (l ++ (ls.flatten ++ suffix)) hdrs := by
          rw [harith]; simp [List.flatten_cons, List.append_assoc]
      _ = srvLoopF (ls.length + f) (ls.flatten ++ suffix) (headerAdd hdrs n (trimSpace v)) :=
          srvLoopF_step (ls.length + f) l (ls.flatten ++ suffix) hdrs h1 h2 n v hsp
      _ = srvLoopF f suffix ((l :: ls).foldl addHeaderLine hdrs) := by
          rw [← hfoldarg] at *; simpa using hrec

/-- C1: for every server handshake input in which some header line before
the blank terminator lacks the colon-space separator (`splitSep` finds no
`": "`), `InitializeServerSession` writes exactly the bytes
`"JSONRPS/1.0 400 Bad Request\r\n\r\n"`, closes the connection, and returns
a nil session.  The input is decomposed as the well-formed lines preceding
the first such line, the offending line itself, and arbitrary trailing
bytes. -/
theorem InitializeServerSession_malformed_header_400
    (good : List Str) (bad tail : Str)
    (hg : ∀ l ∈ good, isLine l = true ∧ l ≠ ['\n'] ∧ (splitSep l).isSome = true)
    (hb1 : isLine bad = true) (hb2 : bad ≠ ['\n']) (hb3 : splitSep bad = none) :
    InitializeServerSession (good.flatten ++ bad ++ tail) =
      { session := none, written := badRequestBytes, closed := true, hasErr := false } := by
  have hle : good.length ≤ (good.flatten ++ bad ++ tail).length := by
    have := length_le_flatten_length good (fun l hl => (hg l hl).1)
    simp only [List.length_append]
    omega
  have harith : (good.flatten ++ bad ++ tail).length + 1 =
      good.length + (((good.flatten ++ bad ++ tail).length - good.length) + 1) := by
    omega
  unfold InitializeServerSession
  rw [harith, List.append_assoc,
    srvLoopF_lines good _ (bad ++ tail) [] hg,
    srvLoopF_bad _ bad tail _ hb1 hb2 hb3]

/-- Witness for C1 at the spec's concrete input
`"InvalidHeaderLine\r\n\n"`: the offending line is the first line and the
trailing bytes are the terminator. -/
theorem InitializeServerSession_malformed_header_400_witness :
    InitializeServerSession (List.flatten ([] : List Str) ++
        "InvalidHeaderLine\r\n".toList ++ "\n".toList) =
      { session := none, written := badRequestBytes, closed := true, hasErr := false } :=
  InitializeServerSession_malformed_header_400 [] "InvalidHeaderLine\r\n".toList
    "\n".toList (by simp) (by decide) (by decide) (by decide)

/-- C3 (counterexample): the handshake does not return the header pairs
exactly as they appeared on the wire with values only right-trimmed.  On
the block `"name:  b \r\n\n"` the wire pair is `("name", " b")` (name as
sent, value right-trimmed), but the code stores the MIME-canonicalised name
`"Name"` with the value trimmed on both ends, `"b"`. -/
theorem server_header_parse_claim_counterexample :
    (InitializeServerSession "name:  b \r\n\n".toList).session =
      some [("Name".toList, ["b".toList])] ∧
    (InitializeServerSession "name:  b \r\n\n".toList).session ≠
      some [("name".toList, [" b".toList])] := by
  decide

/-- C3 (amended): for every well-formed header block (complete
non-terminator lines containing the colon-space separator, followed by the
blank terminator), the handshake succeeds with nothing written and returns
exactly the multimap obtained by adding, for each line in order, the value
trimmed of whitespace on both ends under the MIME-canonicalised name
(`headerAdd`, which appends values of a repeated canonical name in
insertion order). -/
theorem server_header_parse_canonical_trim (lines : List Str)
    (h : ∀ l ∈ lines, isLine l = true ∧ l ≠ ['\n'] ∧ (splitSep l).isSome = true) :
    InitializeServerSession (lines.flatten ++ ['\n']) =
      { session := some (lines.foldl addHeaderLine []), written := [],
        closed := false, hasErr := false } := by
  have hle : lines.length ≤ (lines.flatten ++ ['\n']).length := by
    have := length_le_flatten_length lines (fun l hl => (h l hl).1)
    simp only [List.length_append]
    omega
  have harith : (lines.flatten ++ ['\n']).length + 1 =
      lines.length + (((lines.flatten ++ ['\n']).length - lines.length) + 1) := by
    omega
  unfold InitializeServerSession
  rw [harith, srvLoopF_lines lines _ ['\n'] [] h, srvLoopF_term]

/-- Witness for the amended C3 on a block with a repeated name in two
spellings: both lines land under the canonical key `"Accept"`, values in
wire order. -/
theorem server_header_parse_canonical_trim_witness :
    InitializeServerSession
        (List.flatten ["Accept: x\r\n".toList, "accept: y\r\n".toList] ++ ['\n']) =
      { session := some [("Accept".toList, ["x".toList, "y".toList])],
        written := [], closed := false, hasErr := false } :=
  (server_header_parse_canonical_trim
    ["Accept: x\r\n".toList, "accept: y\r\n".toList] (by decide)).trans (by decide)

/-- C9: the handshake input consisting of the bare terminator `"\n"` yields
a non-nil session with an empty (but initialised) header multimap, writes
no bytes, closes nothing and returns no error. -/
theorem InitializeServerSession_terminator_only :
    InitializeServerSession "\n".toList =
      { session := some [], written := [], closed := false, hasErr := false } := by
  decide

/-- With the latch already set, every `Session.Write` call hands exactly
its argument bytes to the connection. -/
theorem writeCalls_latch_set (qs : List Str) :
    writeCalls { headerSent := true } qs = ({ headerSent := true }, qs) := by
  induction qs with
  | nil => rfl
  | cons p ps ih => simp [writeCalls, Session.Write, ih]

/-- C4: starting from a session whose header-flushed latch is unset, the
first `Write(p)` emits the blank terminator `"\r\n"`, sets the latch, and
then writes exactly `p`; every later `Write` in the sequence (and any
`Write` sequence starting with the latch set) hands exactly its argument
bytes to the connection with no added terminator. -/
theorem Session_Write_latch_behavior (p : Str) (ps qs : List Str) :
    writeCalls { headerSent := false } (p :: ps) =
      ({ headerSent := true }, "\r\n".toList :: p :: ps) ∧
    writeCalls { headerSent := true } qs = ({ headerSent := true }, qs) := by
  refine ⟨?_, writeCalls_latch_set qs⟩
  simp [writeCalls, Session.Write, writeCalls_latch_set ps]

/-- C5: serialising the spec's sample request
(version `"2.0"`, method `"subtract"`, params `[42,23]`, id `"1"`) with
`WriteRequest` on a session whose header block is already flushed produces
one line whose `ReadRequest` parse returns an equal request with no error:
`ReadRequest` after `WriteRequest` is the identity on this request (its id
is a string and its params round-trip as raw bytes, so JSON numeric
widening does not arise). -/
theorem WriteRequest_ReadRequest_roundtrip :
    Session.ReadRequest ((Session.WriteRequest { headerSent := true } sampleRequest).2) =
      some (some sampleRequest) := rfl

/-- C6: a router probes its handlers in list order: `CanHandleSession` is
true exactly when some member's probe succeeds (the recursion returns at the
first success), and `HandleSession` hands the session to the first handler
whose probe succeeds — `List.find?` of the probe — and to no other handler,
leaving the session untouched when no probe succeeds. -/
theorem ServerSessionRouter_first_match (S : Type) (r : ServerSessionRouter S) (s : S) :
    (ServerSessionRouter.CanHandleSession r s = true ↔
      ∃ h ∈ r, h.CanHandleSession s = true) ∧
    ServerSessionRouter.HandleSession r s =
      (match r.find? (fun h => h.CanHandleSession s) with
       | some h => h.HandleSession s
       | none => s) := by
  induction r with
  | nil =>
    refine ⟨by simp [ServerSessionRouter.CanHandleSession], ?_⟩
    simp [ServerSessionRouter.HandleSession, List.find?]
  | cons h t ih =>
    by_cases hp : h.CanHandleSession s = true
    · refine ⟨?_, ?_⟩
      · simp only [ServerSessionRouter.CanHandleSession, hp, if_true, true_iff]
        exact ⟨h, by simp, hp⟩
      · simp [ServerSessionRouter.HandleSession, hp, List.find?_cons_of_pos _ hp]
    · have hp' : h.CanHandleSession s = false := by
        simpa using hp
      refine ⟨?_, ?_⟩
      · have hred : ServerSessionRouter.CanHandleSession (h :: t) s =
            ServerSessionRouter.CanHandleSession t s := by
          simp [ServerSessionRouter.CanHandleSession, hp']
        rw [hred, ih.1]
        constructor
        · rintro ⟨x, hx, hxp⟩
          exact ⟨x, by simp [hx], hxp⟩
        · rintro ⟨x, hx, hxp⟩
          rcases List.mem_cons.mp hx with rfl | hx'
          · exact absurd hxp hp
          · exact ⟨x, hx', hxp⟩
      · have hred : ServerSessionRouter.HandleSession (h :: t) s =
            ServerSessionRouter.HandleSession t s := by
          simp [ServerSessionRouter.HandleSession, hp']
        have hfind : List.find? (fun x => x.CanHandleSession s) (h :: t) =
            List.find? (fun x => x.CanHandleSession s) t :=
          List.find?_cons_of_neg t hp
        rw [hred, ih.2, hfind]

/-- C7: on a client handshake that receives the peer header block
`"Content-Type: application/json\r\n\r\n"` with empty caller headers, the
peer's pair is recorded in the session's local (outgoing) header multimap
(`client.go:66` adds to `sess.LocalHeaders`), and the remote-headers
multimap stays empty: the claim's intended destination (`RemoteHeaders`)
is never populated. -/
theorem InitializeClientSession_remote_headers_empty :
    InitializeClientSession [] "Content-Type: application/json\r\n\r\n".toList =
      { localHeaders := [("Content-Type".toList, ["application/json".toList])],
        remoteHeaders := [] } := by
  decide

/-- C8: `SetMethod`'s registry mutation (both the store and the
nil-removal) happens between `methodsLock.Lock()` and its deferred
`Unlock()`, but the dispatcher's lookup of a request's method name
(`server.go:159`) reads the registry with the lock not held. -/
theorem registry_lock_discipline (name m : Str) (methodIsNil : Bool) :
    opsUnderLock (SetMethodTrace name methodIsNil) = true ∧
    opsUnderLock (dispatcherLookupTrace m) = false := by
  cases methodIsNil <;>
    simp [opsUnderLock, opsUnderLockFrom, SetMethodTrace, dispatcherLookupTrace]

/-- C10: the line `"null\n"` is a valid JSON document whose value is null;
`ReadRequest` returns a nil request with a nil error and `ReadResponse`
a nil response with a nil error (`some none` in the model: success carrying
a nil message), so callers receive nil with no error signal. -/
theorem ReadRequest_ReadResponse_null_line :
    Session.ReadRequest "null\n".toList = some none ∧
    Session.ReadResponse "null\n".toList = some none := ⟨rfl, rfl⟩

/-- C2: the source constructs a fresh buffered reader for every line read
(`server.go:38`, `session.go:77`), so look-ahead bytes are discarded
between reads.  Delivering the bytes `"A: b\n\nnull\n"` in one transport
read, the handshake parses the first header line, discards the buffered
terminator and request line, and the session ends with a read error and no
request; delivering the same bytes one byte per read parses the same
header block cleanly and then reads the request line.  The two runs
disagree, refuting the claim that parsing is delivery-independent. -/
theorem fresh_reader_chunk_divergence :
    pipelineFresh ["A: b\n\nnull\n".toList] =
      { headers := [("A".toList, ["b".toList])], outcome := .eofErr, msg := none } ∧
    pipelineFresh (explode "A: b\n\nnull\n".toList) =
      { headers := [("A".toList, ["b".toList])], outcome := .clean, msg := some none } :=
  ⟨rfl, rfl⟩

/-- With the single persistent buffered reader the specification mandates,
the same byte stream parses identically whether delivered in one chunk or
one byte at a time. -/
theorem persistent_reader_chunk_invariance :
    pipelinePers ["A: b\n\nnull\n".toList] =
      pipelinePers (explode "A: b\n\nnull\n".toList) := rfl
